import Mathlib

/-!
Verification of the task re-ordering and subtask-materialization workflow of
the zap utility: ranking-response validation and repair, rank sorting, relative
move replay, suggestion-count checking, and subtask creation.

The Go sources are embedded shallowly: the pure validation / repair / sorting /
sequencing logic is translated into executable Lean functions, remote calls are
represented by their locally observable effects (the sequence of store calls
issued and an abstract store order), and fallible steps return `Except`.
-/

namespace Zap

/-- A task as held by the task-list store: the fields of `tasksapi.Task` that
the workflow reads (`Id`, `Title`, `Due`, `Notes`, `Status`, `Parent`,
`Position`).  Absent optional fields are empty strings, as in Go. -/
structure Task where
  id : String
  title : String
  due : String
  notes : String
  status : String
  parent : String
  position : String
deriving DecidableEq

/-- A decoded ranking record (`gemini.TaskPriority`): task identifier, numeric
score, explanation, and position string.  The Go `float64` score only ever
faces order comparisons against the integer bounds 0 and 100 and the constant
50, so it is embedded as a rational number. -/
structure TaskPriority where
  taskID : String
  priority : Rat
  explanation : String
  newPosition : String
deriving DecidableEq

/-- A decoded decomposition record (`gemini.SubtaskSuggestion`). -/
structure SubtaskSuggestion where
  parentTaskID : String
  subtasks : List String
  rationale : String
deriving DecidableEq

/-- Little-endian decimal digits of `n`, with explicit fuel so that the
definition is structurally recursive; fuel `n` is always sufficient because a
number has at most as many decimal digits as its own value. -/
def decDigitsAux : Nat → Nat → List Char
  | 0, _ => []
  | _ + 1, 0 => []
  | fuel + 1, n + 1 => Nat.digitChar ((n + 1) % 10) :: decDigitsAux fuel ((n + 1) / 10)

/-- Most-significant-first decimal digits of `n` (empty for `n = 0`). -/
def decimalChars (n : Nat) : List Char := (decDigitsAux n n).reverse

/-- Go `fmt.Sprintf("%05d", n)`: the decimal form of `n`, left-padded with
zeros to a minimum width of five characters (wider numbers keep all their
digits). -/
def sprintf05d (n : Nat) : String :=
  let s := if n = 0 then ['0'] else decimalChars n
  ⟨List.replicate (5 - s.length) '0' ++ s⟩

/-- One iteration of the repair loop of `AnalyzeAndPrioritizeTasks`
(gemini.go): a score outside [0,100] is coerced to 50, then a position string
whose length is not 5 is replaced by the zero-padded 1-indexed rank `i + 1`. -/
def repairRecord (i : Nat) (p : TaskPriority) : TaskPriority :=
  let p1 := if p.priority < 0 ∨ p.priority > 100 then { p with priority := 50 } else p
  if p1.newPosition.length ≠ 5 then { p1 with newPosition := sprintf05d (i + 1) } else p1

/-- The whole repair loop, carrying the running array index. -/
def repairFrom : Nat → List TaskPriority → List TaskPriority
  | _, [] => []
  | i, p :: ps => repairRecord i p :: repairFrom (i + 1) ps

/-- `for i := range priorities { ... }` of `AnalyzeAndPrioritizeTasks`. -/
def repairRecords (ps : List TaskPriority) : List TaskPriority := repairFrom 0 ps

/-- The validation tail of `AnalyzeAndPrioritizeTasks` (gemini.go): after JSON
decoding, a record count differing from the submitted task count is a hard
error; otherwise every record is repaired in place and the array returned. -/
def validatePriorities (tasks : List Task) (priorities : List TaskPriority) :
    Except String (List TaskPriority) :=
  if priorities.length ≠ tasks.length then
    .error ("received incorrect number of priorities: got " ++
      toString priorities.length ++ ", want " ++ toString tasks.length)
  else
    .ok (repairRecords priorities)

/-- The validation tail of `SuggestSubtasks`: the number of decoded
suggestions must equal the locally computed number of top-level tasks (tasks
whose parent field is empty) in the submitted batch. -/
def validateSuggestions (tasks : List Task) (suggestions : List SubtaskSuggestion) :
    Except String (List SubtaskSuggestion) :=
  let topLevelTasks := tasks.filter (fun t => t.parent == "")
  if suggestions.length ≠ topLevelTasks.length then
    .error ("received incorrect number of suggestions: got " ++
      toString suggestions.length ++ ", want " ++ toString topLevelTasks.length)
  else
    .ok suggestions

/-- `getPriorityForTask` (prioritizer): first matching record wins, an unknown
task identifier falls back to the default priority 0. -/
def getPriorityForTask (taskID : String) : List TaskPriority → Rat
  | [] => 0
  | p :: ps => if p.taskID = taskID then p.priority else getPriorityForTask taskID ps

/-- One task-insertion call issued against the store: the target list, the task
body sent, and the parent identifier passed separately through the call
parameter (`insertCall.Parent(...)`). -/
structure InsertCall where
  taskListId : String
  body : Task
  parentParam : String
deriving DecidableEq

/-- The subtask body built by `CreateSubtasks` for one proposed title: title,
explicit parent linkage, a note carrying the rationale, and the parent's due
date when the parent has one. -/
def mkSubtaskBody (sugg : SubtaskSuggestion) (parentTask : Task) (title : String) : Task :=
  let base : Task :=
    { id := "", title := title, due := "",
      notes := "Auto-generated subtask\nRationale: " ++ sugg.rationale,
      status := "", parent := sugg.parentTaskID, position := "" }
  if parentTask.due ≠ "" then { base with due := parentTask.due } else base

/-- The inner loop of `CreateSubtasks` over one suggestion's proposed titles:
each title becomes one insert call; a store-side insert failure (described by
the oracle `insertOk`) aborts with an error and stops the loop. -/
def insertSubtasks (insertOk : InsertCall → Bool) (taskListId : String)
    (sugg : SubtaskSuggestion) (parentTask : Task) :
    List String → Except String (List InsertCall)
  | [] => .ok []
  | title :: rest =>
    let c : InsertCall :=
      { taskListId := taskListId, body := mkSubtaskBody sugg parentTask title,
        parentParam := sugg.parentTaskID }
    if insertOk c then
      match insertSubtasks insertOk taskListId sugg parentTask rest with
      | .error e => .error e
      | .ok cs => .ok (c :: cs)
    else
      .error ("failed to create subtask " ++ title ++ " for parent task " ++ sugg.parentTaskID)

/-- `CreateSubtasks` (gemini variant with subtask support): for each
suggestion, fetch the parent task from the store (`fetch`; `none` models a
failed `Tasks.Get` and aborts the whole call), then insert one subtask per
proposed title.  The returned list is the sequence of insert calls issued. -/
def createSubtasks (fetch : String → Option Task) (insertOk : InsertCall → Bool)
    (taskListId : String) : List SubtaskSuggestion → Except String (List InsertCall)
  | [] => .ok []
  | sugg :: rest =>
    match fetch sugg.parentTaskID with
    | none => .error ("failed to get parent task " ++ sugg.parentTaskID)
    | some parentTask =>
      match insertSubtasks insertOk taskListId sugg parentTask sugg.subtasks with
      | .error e => .error e
      | .ok cs =>
        match createSubtasks fetch insertOk taskListId rest with
        | .error e => .error e
        | .ok more => .ok (cs ++ more)

/-- Insert `id` immediately after the first occurrence of `prev` (no change if
`prev` does not occur). -/
def insertAfter : List String → String → String → List String
  | [], _, _ => []
  | x :: xs, prev, id => if x = prev then x :: id :: xs else x :: insertAfter xs prev id

/-- Modelled from the spec: the task store's relative-move primitive, which is
remote and has no body under src/ (`MoveTask` in tasks.go only forwards to
`Tasks.Move`, with `Previous(previousTaskID)` set exactly when
`previousTaskID` is nonempty).  Per the glossary, the move "repositions a task
to immediately follow a named predecessor task (or to the front if no
predecessor given)"; the store order of one list is abstracted as the list of
task identifiers. -/
def moveTask (store : List String) (id prev : String) : List String :=
  if prev = "" then id :: store.filter (fun x => x ≠ id)
  else insertAfter (store.filter (fun x => x ≠ id)) prev id

/-- The move-replay loop of `ReorderTasksByPriority` (position-sorting
variant): iterate over the sorted records, moving each task after the
previously moved one, starting with an empty predecessor. -/
def applyNewOrderFrom (store : List String) (prev : String) :
    List TaskPriority → List String
  | [] => store
  | p :: ps => applyNewOrderFrom (moveTask store p.taskID prev) p.taskID ps

/-- `var previousTaskID string; for _, priority := range priorities ...`. -/
def applyNewOrder (store : List String) (ps : List TaskPriority) : List String :=
  applyNewOrderFrom store "" ps

/-- The sequence of `(taskID, previousTaskID)` pairs passed to `MoveTask` by
the replay loop, in order of issue. -/
def moveTrace (prev : String) : List TaskPriority → List (String × String)
  | [] => []
  | p :: ps => (p.taskID, prev) :: moveTrace p.taskID ps

/-- The comparator of `sort.Slice(priorities, ...)`: Go string `<` on the
position strings, i.e. lexicographic comparison (byte-wise in Go, char-wise in
Lean; identical on the ASCII digit strings at stake). -/
def posLt (p q : TaskPriority) : Prop := p.newPosition.data < q.newPosition.data

instance : DecidableRel posLt := fun p q =>
  inferInstanceAs (Decidable (p.newPosition.data < q.newPosition.data))

/-- The order actually guaranteed by an unstable comparison sort: `p` may come
before `q` exactly when the comparator does not place `q` strictly first. -/
def posLe (p q : TaskPriority) : Prop := ¬ posLt q p

instance : DecidableRel posLe := fun _ _ => instDecidableNot

instance : IsTotal TaskPriority posLe :=
  ⟨fun a b => by
    by_cases h : posLt b a
    · exact Or.inr (lt_asymm h)
    · exact Or.inl h⟩

instance : IsTrans TaskPriority posLe :=
  ⟨fun a b c hab hbc => by
    have h1 : a.newPosition.data ≤ b.newPosition.data := not_lt.mp hab
    have h2 : b.newPosition.data ≤ c.newPosition.data := not_lt.mp hbc
    exact not_lt.mpr (le_trans h1 h2)⟩

/-- `sort.Slice(priorities, func(i, j int) bool { return priorities[i].NewPosition
< priorities[j].NewPosition })`: modelled as a comparison sort whose output is
ordered by `posLe` and permutes the input. -/
def sortByPosition (ps : List TaskPriority) : List TaskPriority :=
  List.insertionSort posLe ps

/-- Is `c` a decimal digit (ASCII 48-57)? -/
def isDigitChar (c : Char) : Prop := 48 ≤ c.toNat ∧ c.toNat ≤ 57

instance : DecidablePred isDigitChar := fun _ => instDecidableAnd

/-- The number denoted by a most-significant-first decimal digit string. -/
def digitsVal : List Char → Nat
  | [] => 0
  | c :: cs => (c.toNat - 48) * 10 ^ cs.length + digitsVal cs

/-- The numeric rank a record's position string denotes. -/
def posVal (p : TaskPriority) : Nat := digitsVal p.newPosition.data

/-- `strings.ToLower`, modelled per character (agrees with Go on ASCII, which
is all the hard-coded list titles use). -/
def strToLower (s : String) : String := ⟨s.data.map Char.toLower⟩

/-- `shouldProcessList`: a store list title matches when, after lowercasing
both sides, it equals some configured target title. -/
def shouldProcessList (listTitle : String) (targetLists : List String) : Bool :=
  targetLists.any (fun target => strToLower target == strToLower listTitle)

/-- One store list of the catalog: identifier, title, and its tasks. -/
structure CatalogList where
  id : String
  title : String
  tasks : List Task
deriving DecidableEq

/-- The collection phase of the catalog-scanning `ReorderTasksByPriority`
variant: walk the store's list catalog, skip lists whose title matches no
target, and accumulate the tasks of the matching lists. -/
def collectTargetTasks (targetLists : List String) : List CatalogList → List Task
  | [] => []
  | l :: ls =>
    if shouldProcessList l.title targetLists then
      l.tasks ++ collectTargetTasks targetLists ls
    else
      collectTargetTasks targetLists ls

/-- The collection phase followed by the `len(allTasks) == 0` check. -/
def gatherTargetTasks (targetLists : List String) (catalog : List CatalogList) :
    Except String (List Task) :=
  let allTasks := collectTargetTasks targetLists catalog
  if allTasks.isEmpty then .error "no tasks found in the specified lists"
  else .ok allTasks

/-- The tail of the per-list move replay of the catalog-scanning variant:
each task is moved immediately after the previously placed one; `failing` is
the set of task identifiers whose store-side move fails.  Returns the final
store order, the trace of attempted `(taskID, previousTaskID)` move calls
(the failing attempt included), and the error, if any. -/
def moveTasksAfter (failing : List String) (listTitle : String) :
    List String → Task → List Task → List String × List (String × String) × Option String
  | store, _, [] => (store, [], none)
  | store, prevTask, current :: rest =>
    if current.id ∈ failing then
      (store, [(current.id, prevTask.id)],
        some ("failed to move task " ++ current.title ++ " after " ++ prevTask.title ++
          " in list " ++ listTitle))
    else
      let r := moveTasksAfter failing listTitle (moveTask store current.id prevTask.id)
        current rest
      (r.1, (current.id, prevTask.id) :: r.2.1, r.2.2)

/-- The per-list move replay: the first (highest-priority) task is moved to
the top with no predecessor, then the remaining tasks follow via
`moveTasksAfter`. -/
def applyListOrder (failing : List String) (listTitle : String) (store : List String) :
    List Task → List String × List (String × String) × Option String
  | [] => (store, [], none)
  | highest :: rest =>
    if highest.id ∈ failing then
      (store, [(highest.id, "")],
        some ("failed to move task " ++ highest.title ++ " to top in list " ++ listTitle))
    else
      let r := moveTasksAfter failing listTitle (moveTask store highest.id "") highest rest
      (r.1, (highest.id, "") :: r.2.1, r.2.2)

/-- The outer loop over the per-list groups: each list's order is applied in
turn and the first error stops the loop, leaving already-processed lists with
their new order (Go iterates a map here, so the embedding fixes an arbitrary
enumeration). -/
def reorderLists (failing : List String) :
    List (String × List String × List Task) → List (String × List String) × Option String
  | [] => ([], none)
  | (title, store, ranked) :: rest =>
    let r := applyListOrder failing title store ranked
    match r.2.2 with
    | some e => ([(title, r.1)], some e)
    | none =>
      let rr := reorderLists failing rest
      ((title, r.1) :: rr.1, rr.2)

/-! ### Helper lemmas about the repair loop -/

lemma repairFrom_length (s : Nat) (ps : List TaskPriority) :
    (repairFrom s ps).length = ps.length := by
  induction ps generalizing s with
  | nil => rfl
  | cons p ps ih => simp [repairFrom, ih]

lemma repairRecord_taskID (i : Nat) (p : TaskPriority) :
    (repairRecord i p).taskID = p.taskID := by
  simp only [repairRecord]
  split <;> split <;> rfl

lemma repairRecord_explanation (i : Nat) (p : TaskPriority) :
    (repairRecord i p).explanation = p.explanation := by
  simp only [repairRecord]
  split <;> split <;> rfl

lemma repairRecord_newPosition (i : Nat) (p : TaskPriority) :
    (repairRecord i p).newPosition =
      if p.newPosition.length ≠ 5 then sprintf05d (i + 1) else p.newPosition := by
  simp only [repairRecord]
  split <;> split <;> simp_all

lemma repairRecord_priority_bounds (i : Nat) (p : TaskPriority) :
    0 ≤ (repairRecord i p).priority ∧ (repairRecord i p).priority ≤ 100 := by
  by_cases h : p.priority < 0 ∨ p.priority > 100
  · have hp : (repairRecord i p).priority = 50 := by
      simp only [repairRecord, if_pos h]
      split <;> rfl
    rw [hp]
    constructor <;> norm_num
  · have hp : (repairRecord i p).priority = p.priority := by
      simp only [repairRecord, if_neg h]
      split <;> rfl
    push_neg at h
    rw [hp]
    exact ⟨h.1, h.2⟩

lemma repairFrom_get (ps : List TaskPriority) (s i : Nat) (h : i < ps.length)
    (h2 : i < (repairFrom s ps).length) :
    (repairFrom s ps).get ⟨i, h2⟩ = repairRecord (s + i) (ps.get ⟨i, h⟩) := by
  induction ps generalizing s i with
  | nil => cases h
  | cons p ps ih =>
    cases i with
    | zero => simp [repairFrom]
    | succ j =>
      have hj : j < ps.length := Nat.lt_of_succ_lt_succ h
      have hj2 : j < (repairFrom (s + 1) ps).length := by
        rw [repairFrom_length]; exact hj
      have := ih (s + 1) j hj hj2
      simp only [repairFrom, List.get_cons_succ, this]
      congr 1
      omega

lemma mem_repairFrom (ps : List TaskPriority) (s : Nat) {q : TaskPriority}
    (hq : q ∈ repairFrom s ps) :
    ∃ (i : Nat) (h : i < ps.length), q = repairRecord (s + i) (ps.get ⟨i, h⟩) := by
  induction ps generalizing s with
  | nil => simp [repairFrom] at hq
  | cons p ps ih =>
    rw [repairFrom] at hq
    rcases List.mem_cons.mp hq with h | h
    · exact ⟨0, Nat.succ_pos _, by simpa using h⟩
    · obtain ⟨i, hi, heq⟩ := ih (s + 1) h
      refine ⟨i + 1, Nat.succ_lt_succ hi, ?_⟩
      rw [heq]
      simp only [List.get_cons_succ]
      congr 1
      omega

lemma repairFrom_replicate_mem (p : TaskPriority) (m s i : Nat) (h : i < m) :
    repairRecord (s + i) p ∈ repairFrom s (List.replicate m p) := by
  induction m generalizing s i with
  | zero => cases h
  | succ m ih =>
    rw [List.replicate_succ, repairFrom]
    cases i with
    | zero => simp
    | succ j =>
      apply List.mem_cons_of_mem
      have := ih (s + 1) j (Nat.lt_of_succ_lt_succ h)
      have harith : s + (j + 1) = (s + 1) + j := by omega
      rw [harith]
      exact this

lemma validatePriorities_ok_iff (tasks : List Task) (ps qs : List TaskPriority) :
    validatePriorities tasks ps = .ok qs ↔
      ps.length = tasks.length ∧ qs = repairRecords ps := by
  unfold validatePriorities
  split
  next h => simp [h]
  next h =>
    push_neg at h
    simp only [Except.ok.injEq, h, true_and]
    exact eq_comm

lemma repairFrom_map_taskID (s : Nat) (ps : List TaskPriority) :
    (repairFrom s ps).map TaskPriority.taskID = ps.map TaskPriority.taskID := by
  induction ps generalizing s with
  | nil => rfl
  | cons p ps ih => simp [repairFrom, repairRecord_taskID, ih]

lemma getPriorityForTask_not_mem (id : String) (ps : List TaskPriority)
    (h : id ∉ ps.map TaskPriority.taskID) : getPriorityForTask id ps = 0 := by
  induction ps with
  | nil => rfl
  | cons p ps ih =>
    simp only [List.map_cons, List.mem_cons] at h
    push_neg at h
    rw [getPriorityForTask, if_neg (fun heq => h.1 heq.symm)]
    exact ih h.2

/-! ### Helper lemmas about decimal formatting -/

lemma decDigitsAux_length_le (fuel : Nat) :
    ∀ (n k : Nat), n < 10 ^ k → (decDigitsAux fuel n).length ≤ k := by
  induction fuel with
  | zero => intro n k _; simp [decDigitsAux]
  | succ f ih =>
    intro n k h
    match n with
    | 0 => simp [decDigitsAux]
    | n + 1 =>
      have hk : k ≠ 0 := by
        intro h0
        subst h0
        simp at h
      obtain ⟨k', rfl⟩ : ∃ k', k = k' + 1 := ⟨k - 1, by omega⟩
      rw [decDigitsAux]
      simp only [List.length_cons]
      have hdiv : (n + 1) / 10 < 10 ^ k' := by
        rw [Nat.div_lt_iff_lt_mul (by norm_num : (0:Nat) < 10)]
        calc n + 1 < 10 ^ (k' + 1) := h
          _ = 10 ^ k' * 10 := by ring
      have := ih ((n + 1) / 10) k' hdiv
      omega

lemma sprintf05d_length (n : Nat) (h1 : 0 < n) (h2 : n < 100000) :
    (sprintf05d n).length = 5 := by
  have hne : n ≠ 0 := by omega
  have hlen : (decimalChars n).length ≤ 5 := by
    rw [decimalChars, List.length_reverse]
    exact decDigitsAux_length_le n n 5 (by norm_num at h2 ⊢; omega)
  simp only [sprintf05d, hne, if_false]
  show (List.replicate (5 - (decimalChars n).length) '0' ++ decimalChars n).length = 5
  rw [List.length_append, List.length_replicate]
  omega

/-! ### Claims about ranking-response validation -/

/-- A batch member for the C1 counterexample. -/
def c1Task : Task := ⟨"t1", "Task", "", "", "needsAction", "", "p0"⟩

/-- A decoded record with an in-range score and an empty (hence invalid)
position string. -/
def c1Bad : TaskPriority := ⟨"t1", 50, "ok", ""⟩

/-- **C1 (counterexample)**: for a batch of 100000 tasks whose decoded records
all carry an invalid position string, validation succeeds, yet the record at
index 99999 receives the synthesized position "100000", which is six
characters long — so not every validated position string is exactly five
characters. -/
theorem validatePriorities_width_overflow :
    ∃ qs, validatePriorities (List.replicate 100000 c1Task)
        (List.replicate 100000 c1Bad) = .ok qs ∧
      ¬ (∀ q ∈ qs, q.newPosition.length = 5) := by
  refine ⟨repairRecords (List.replicate 100000 c1Bad), ?_, ?_⟩
  · rw [validatePriorities_ok_iff]
    exact ⟨by rw [List.length_replicate, List.length_replicate], rfl⟩
  · intro hall
    have hmem : repairRecord 99999 c1Bad ∈ repairRecords (List.replicate 100000 c1Bad) := by
      have := repairFrom_replicate_mem c1Bad 100000 0 99999 (by norm_num)
      rw [Nat.zero_add] at this
      rw [repairRecords]
      exact this
    have h5 := hall _ hmem
    have h6 : (repairRecord 99999 c1Bad).newPosition.length = 6 := by decide
    rw [h6] at h5
    exact absurd h5 (by norm_num)

/-- **C1 (amended)**: for every batch of `N ≥ 1` tasks with `N ≤ 99999`, a
successfully validated ranking response has exactly `N` records, every score
lies in `[0, 100]`, and every position string is exactly five characters
long.  (The cap is forced by the counterexample above: from rank 100000 on the
synthesized zero-padded position is wider than five characters.) -/
theorem validatePriorities_ok_bounds (tasks : List Task) (ps qs : List TaskPriority)
    (hN : 1 ≤ tasks.length) (hcap : tasks.length ≤ 99999)
    (hok : validatePriorities tasks ps = .ok qs) :
    qs.length = tasks.length ∧
      ∀ q ∈ qs, 0 ≤ q.priority ∧ q.priority ≤ 100 ∧ q.newPosition.length = 5 := by
  obtain ⟨hlen, rfl⟩ := (validatePriorities_ok_iff tasks ps qs).mp hok
  constructor
  · rw [repairRecords, repairFrom_length, hlen]
  · intro q hq
    obtain ⟨i, hi, rfl⟩ := mem_repairFrom ps 0 hq
    refine ⟨(repairRecord_priority_bounds _ _).1, (repairRecord_priority_bounds _ _).2, ?_⟩
    rw [repairRecord_newPosition]
    split
    · exact sprintf05d_length _ (by omega) (by omega)
    · next h =>
      push_neg at h
      exact h

/-- Concrete batch for the C1 witness. -/
def c1wTask : Task := ⟨"t1", "Task", "", "", "needsAction", "", "p0"⟩

/-- A record with an out-of-range score and a three-character position. -/
def c1wRec : TaskPriority := ⟨"t1", 150, "hi", "123"⟩

theorem validatePriorities_ok_bounds_witness :
    (repairRecords [c1wRec]).length = [c1wTask].length ∧
      ∀ q ∈ repairRecords [c1wRec],
        0 ≤ q.priority ∧ q.priority ≤ 100 ∧ q.newPosition.length = 5 :=
  validatePriorities_ok_bounds [c1wTask] [c1wRec] (repairRecords [c1wRec])
    (by decide) (by decide) rfl

/-- **C4**: during per-record repair, a record whose score is outside
`[0, 100]` gets score exactly 50, and a record whose position string is not
exactly five characters long gets the zero-padded decimal of its 1-indexed
array position; the record at index 0 receives "00001". -/
theorem repairRecords_repairs_fields (ps : List TaskPriority) (i : Nat)
    (h : i < ps.length) (h2 : i < (repairRecords ps).length) :
    (((ps.get ⟨i, h⟩).priority < 0 ∨ (ps.get ⟨i, h⟩).priority > 100) →
      ((repairRecords ps).get ⟨i, h2⟩).priority = 50) ∧
    ((ps.get ⟨i, h⟩).newPosition.length ≠ 5 →
      ((repairRecords ps).get ⟨i, h2⟩).newPosition = sprintf05d (i + 1)) ∧
    sprintf05d 1 = "00001" := by
  have hg : (repairRecords ps).get ⟨i, h2⟩ = repairRecord i (ps.get ⟨i, h⟩) := by
    have := repairFrom_get ps 0 i h h2
    simpa [repairRecords] using this
  refine ⟨?_, ?_, by decide⟩
  · intro hbad
    rw [hg]
    simp only [repairRecord, if_pos hbad]
    split <;> rfl
  · intro hbad
    rw [hg, repairRecord_newPosition, if_pos hbad]

/-- Record with both fields invalid, for the C4 witness. -/
def c4Rec : TaskPriority := ⟨"t1", -5, "low", "0000001"⟩

theorem repairRecords_repairs_fields_witness :
    (((([c4Rec] : List TaskPriority).get ⟨0, by decide⟩).priority < 0 ∨
        (([c4Rec] : List TaskPriority).get ⟨0, by decide⟩).priority > 100) →
      ((repairRecords [c4Rec]).get ⟨0, by decide⟩).priority = 50) ∧
    ((([c4Rec] : List TaskPriority).get ⟨0, by decide⟩).newPosition.length ≠ 5 →
      ((repairRecords [c4Rec]).get ⟨0, by decide⟩).newPosition = sprintf05d (0 + 1)) ∧
    sprintf05d 1 = "00001" :=
  repairRecords_repairs_fields [c4Rec] 0 (by decide) (by decide)

/-- **C10**: repair touches only the score and position fields — the validated
array has the same length and order as the decoded one, and every record's
task identifier and explanation are unchanged. -/
theorem repair_preserves_id_explanation (tasks : List Task) (ps qs : List TaskPriority)
    (hok : validatePriorities tasks ps = .ok qs) :
    qs.length = ps.length ∧
      ∀ (i : Nat) (h : i < ps.length) (h2 : i < qs.length),
        (qs.get ⟨i, h2⟩).taskID = (ps.get ⟨i, h⟩).taskID ∧
        (qs.get ⟨i, h2⟩).explanation = (ps.get ⟨i, h⟩).explanation := by
  obtain ⟨hlen, rfl⟩ := (validatePriorities_ok_iff tasks ps qs).mp hok
  refine ⟨by rw [repairRecords, repairFrom_length], ?_⟩
  intro i h h2
  have hg : (repairRecords ps).get ⟨i, h2⟩ = repairRecord i (ps.get ⟨i, h⟩) := by
    have := repairFrom_get ps 0 i h h2
    simpa [repairRecords] using this
  rw [hg, repairRecord_taskID, repairRecord_explanation]
  exact ⟨rfl, rfl⟩

/-- Concrete batch for the C10 witness. -/
def c10Task : Task := ⟨"t9", "Task", "", "", "needsAction", "", "p0"⟩

/-- A record needing both repairs, for the C10 witness. -/
def c10Rec : TaskPriority := ⟨"t9", 101, "why", "abc"⟩

theorem repair_preserves_id_explanation_witness :
    (repairRecords [c10Rec]).length = [c10Rec].length ∧
      ∀ (i : Nat) (h : i < ([c10Rec] : List TaskPriority).length)
        (h2 : i < (repairRecords [c10Rec]).length),
        ((repairRecords [c10Rec]).get ⟨i, h2⟩).taskID =
          (([c10Rec] : List TaskPriority).get ⟨i, h⟩).taskID ∧
        ((repairRecords [c10Rec]).get ⟨i, h2⟩).explanation =
          (([c10Rec] : List TaskPriority).get ⟨i, h⟩).explanation :=
  repair_preserves_id_explanation [c10Task] [c10Rec] (repairRecords [c10Rec]) rfl

/-- The single submitted task of the C9 counterexample. -/
def c9Task : Task := ⟨"a", "A", "", "", "needsAction", "", "00001"⟩

/-- A well-formed record referring to a task outside the batch. -/
def c9Alien : TaskPriority := ⟨"x", 50, "fine", "00001"⟩

/-- **C9 (counterexample)**: a decoded response with the right count but a
task identifier foreign to the submitted batch validates successfully — no
membership check is performed. -/
theorem validatePriorities_alien_id_cex :
    validatePriorities [c9Task] [c9Alien] = .ok [c9Alien] ∧
      ∀ t ∈ [c9Task], c9Alien.taskID ≠ t.id :=
  ⟨rfl, by decide⟩

/-- **C9 (amended)**: validation guarantees only the record count; task
identifiers pass through unchecked and unchanged, and the downstream consumer
`getPriorityForTask` falls back to the default priority 0 for a task
identifier matching no record. -/
theorem validatePriorities_count_only (tasks : List Task) (ps qs : List TaskPriority)
    (hok : validatePriorities tasks ps = .ok qs) :
    qs.length = tasks.length ∧
      qs.map TaskPriority.taskID = ps.map TaskPriority.taskID ∧
      ∀ id, id ∉ qs.map TaskPriority.taskID → getPriorityForTask id qs = 0 := by
  obtain ⟨hlen, rfl⟩ := (validatePriorities_ok_iff tasks ps qs).mp hok
  refine ⟨by rw [repairRecords, repairFrom_length, hlen], ?_, ?_⟩
  · exact repairFrom_map_taskID 0 ps
  · intro id hid
    exact getPriorityForTask_not_mem id _ hid

theorem validatePriorities_count_only_witness :
    ([c9Alien] : List TaskPriority).length = [c9Task].length ∧
      ([c9Alien] : List TaskPriority).map TaskPriority.taskID =
        ([c9Alien] : List TaskPriority).map TaskPriority.taskID ∧
      ∀ id, id ∉ ([c9Alien] : List TaskPriority).map TaskPriority.taskID →
        getPriorityForTask id [c9Alien] = 0 :=
  validatePriorities_count_only [c9Task] [c9Alien] [c9Alien] rfl

/-- **C5**: `SuggestSubtasks` counts the top-level tasks (empty parent field)
of the submitted batch locally and rejects a decoded response whose suggestion
count differs. -/
theorem validateSuggestions_count_mismatch (tasks : List Task)
    (suggestions : List SubtaskSuggestion)
    (h : suggestions.length ≠ (tasks.filter (fun t => t.parent == "")).length) :
    ∃ e, validateSuggestions tasks suggestions = .error e := by
  refine ⟨"received incorrect number of suggestions: got " ++
    toString suggestions.length ++ ", want " ++
    toString (tasks.filter (fun t => t.parent == "")).length, ?_⟩
  simp only [validateSuggestions]
  rw [if_pos h]

/-- The batch of the C5 witness: five tasks, two of them top-level. -/
def c5Tasks : List Task :=
  [⟨"t1", "Top one", "", "", "needsAction", "", "00001"⟩,
   ⟨"t2", "Top two", "", "", "needsAction", "", "00002"⟩,
   ⟨"s1", "Child one", "", "", "needsAction", "t1", "00001"⟩,
   ⟨"s2", "Child two", "", "", "needsAction", "t1", "00002"⟩,
   ⟨"s3", "Child three", "", "", "needsAction", "t2", "00001"⟩]

/-- Three decoded suggestions for the C5 witness. -/
def c5Suggs : List SubtaskSuggestion :=
  [⟨"t1", ["A"], "r1"⟩, ⟨"t2", ["B"], "r2"⟩, ⟨"s1", ["C"], "r3"⟩]

theorem validateSuggestions_count_mismatch_witness :
    c5Suggs.length ≠ (c5Tasks.filter (fun t => t.parent == "")).length ∧
      ∃ e, validateSuggestions c5Tasks c5Suggs = .error e :=
  ⟨by decide, validateSuggestions_count_mismatch c5Tasks c5Suggs (by decide)⟩

/-! ### Claims about subtask creation -/

lemma insertSubtasks_ok (insertOk : InsertCall → Bool) (listId : String)
    (sg : SubtaskSuggestion) (pt : Task) :
    ∀ (titles : List String) (cs : List InsertCall),
      insertSubtasks insertOk listId sg pt titles = .ok cs →
      cs = titles.map (fun title =>
        { taskListId := listId, body := mkSubtaskBody sg pt title,
          parentParam := sg.parentTaskID }) := by
  intro titles
  induction titles with
  | nil =>
    intro cs h
    simp only [insertSubtasks] at h
    simp only [Except.ok.injEq] at h
    rw [← h, List.map_nil]
  | cons t ts ih =>
    intro cs h
    simp only [insertSubtasks] at h
    by_cases hc : insertOk
        { taskListId := listId, body := mkSubtaskBody sg pt t, parentParam := sg.parentTaskID }
    · rw [if_pos hc] at h
      cases hins : insertSubtasks insertOk listId sg pt ts with
      | error e => rw [hins] at h; simp at h
      | ok cs1 =>
        rw [hins] at h
        simp only [Except.ok.injEq] at h
        rw [← h, List.map_cons, ih cs1 hins]
    · rw [if_neg hc] at h
      simp at h

lemma createSubtasks_ok (fetch : String → Option Task) (insertOk : InsertCall → Bool)
    (listId : String) :
    ∀ (suggs : List SubtaskSuggestion) (parentOf : SubtaskSuggestion → Task),
      (∀ sg ∈ suggs, fetch sg.parentTaskID = some (parentOf sg)) →
      ∀ cs, createSubtasks fetch insertOk listId suggs = .ok cs →
        cs = suggs.flatMap (fun sg => sg.subtasks.map (fun title =>
          { taskListId := listId, body := mkSubtaskBody sg (parentOf sg) title,
            parentParam := sg.parentTaskID })) := by
  intro suggs
  induction suggs with
  | nil =>
    intro parentOf _ cs h
    simp only [createSubtasks] at h
    simp only [Except.ok.injEq] at h
    rw [← h, List.flatMap_nil]
  | cons sg rest ih =>
    intro parentOf hpf cs h
    simp only [createSubtasks] at h
    have hf := hpf sg (List.mem_cons_self sg rest)
    simp only [hf] at h
    cases hins : insertSubtasks insertOk listId sg (parentOf sg) sg.subtasks with
    | error e => simp only [hins] at h; exact Except.noConfusion h
    | ok cs1 =>
      simp only [hins] at h
      cases hrest : createSubtasks fetch insertOk listId rest with
      | error e => simp only [hrest] at h; exact Except.noConfusion h
      | ok cs2 =>
        simp only [hrest, Except.ok.injEq] at h
        have h1 := insertSubtasks_ok insertOk listId sg (parentOf sg) sg.subtasks cs1 hins
        have h2 := ih parentOf (fun s hs => hpf s (List.mem_cons_of_mem sg hs)) cs2 hrest
        rw [← h, List.flatMap_cons, h1, h2]

/-- **C6**: when every suggestion's parent task is fetched successfully and
the whole call succeeds, exactly one insert call is issued per proposed title,
in order; each inserted body carries the proposed title, the parent identifier
both in the body and as the separate call parameter, notes containing the
rationale, and the parent's due date whenever the parent has one. -/
theorem createSubtasks_inserts_per_title
    (fetch : String → Option Task) (insertOk : InsertCall → Bool)
    (taskListId : String) (suggestions : List SubtaskSuggestion)
    (parentOf : SubtaskSuggestion → Task)
    (hfetch : ∀ sg ∈ suggestions, fetch sg.parentTaskID = some (parentOf sg))
    (calls : List InsertCall)
    (hok : createSubtasks fetch insertOk taskListId suggestions = .ok calls) :
    calls = suggestions.flatMap (fun sg => sg.subtasks.map (fun title =>
      { taskListId := taskListId, body := mkSubtaskBody sg (parentOf sg) title,
        parentParam := sg.parentTaskID })) ∧
    ∀ sg ∈ suggestions, ∀ title ∈ sg.subtasks,
      (mkSubtaskBody sg (parentOf sg) title).title = title ∧
      (mkSubtaskBody sg (parentOf sg) title).parent = sg.parentTaskID ∧
      (mkSubtaskBody sg (parentOf sg) title).notes =
        "Auto-generated subtask\nRationale: " ++ sg.rationale ∧
      ((parentOf sg).due ≠ "" →
        (mkSubtaskBody sg (parentOf sg) title).due = (parentOf sg).due) := by
  refine ⟨createSubtasks_ok fetch insertOk taskListId suggestions parentOf hfetch calls hok,
    ?_⟩
  intro sg _ title _
  refine ⟨?_, ?_, ?_, ?_⟩
  · simp only [mkSubtaskBody]; split <;> rfl
  · simp only [mkSubtaskBody]; split <;> rfl
  · simp only [mkSubtaskBody]; split <;> rfl
  · intro hdue
    simp only [mkSubtaskBody]
    rw [if_pos hdue]

/-- The parent task of the C6 witness, holding a due date. -/
def c6Parent : Task := ⟨"p1", "Parent", "2024-06-01T00:00:00Z", "", "needsAction", "", "00001"⟩

/-- The suggestion of the C6 witness: two proposed titles. -/
def c6Sugg : SubtaskSuggestion := ⟨"p1", ["Research", "Design"], "split the work"⟩

/-- The store fetch of the C6 witness. -/
def c6Fetch : String → Option Task := fun id => if id = "p1" then some c6Parent else none

/-- All inserts succeed in the C6 witness. -/
def c6InsertOk : InsertCall → Bool := fun _ => true

/-- The fetched parent of every suggestion in the C6 witness. -/
def c6ParentOf : SubtaskSuggestion → Task := fun _ => c6Parent

theorem createSubtasks_inserts_per_title_witness :
    ([c6Sugg].flatMap (fun sg => sg.subtasks.map (fun title =>
        ({ taskListId := "list1", body := mkSubtaskBody sg (c6ParentOf sg) title,
           parentParam := sg.parentTaskID } : InsertCall))) =
      [c6Sugg].flatMap (fun sg => sg.subtasks.map (fun title =>
        { taskListId := "list1", body := mkSubtaskBody sg (c6ParentOf sg) title,
          parentParam := sg.parentTaskID }))) ∧
    ∀ sg ∈ [c6Sugg], ∀ title ∈ sg.subtasks,
      (mkSubtaskBody sg (c6ParentOf sg) title).title = title ∧
      (mkSubtaskBody sg (c6ParentOf sg) title).parent = sg.parentTaskID ∧
      (mkSubtaskBody sg (c6ParentOf sg) title).notes =
        "Auto-generated subtask\nRationale: " ++ sg.rationale ∧
      ((c6ParentOf sg).due ≠ "" →
        (mkSubtaskBody sg (c6ParentOf sg) title).due = (c6ParentOf sg).due) :=
  createSubtasks_inserts_per_title c6Fetch c6InsertOk "list1" [c6Sugg] c6ParentOf
    (by decide) _ rfl

/-! ### Claims about the move replay -/

lemma insertAfter_split (l1 l2 : List String) (prev id : String) (h : prev ∉ l1) :
    insertAfter (l1 ++ prev :: l2) prev id = l1 ++ prev :: id :: l2 := by
  induction l1 with
  | nil => simp [insertAfter]
  | cons x xs ih =>
    simp only [List.cons_append, insertAfter]
    rw [if_neg (fun hx => h (List.mem_cons.mpr (Or.inl hx.symm)))]
    show x :: insertAfter (xs ++ prev :: l2) prev id = x :: (xs ++ prev :: id :: l2)
    rw [ih (fun hx => h (List.mem_cons_of_mem _ hx))]

lemma filter_ne_of_not_mem (l : List String) (id : String) (h : id ∉ l) :
    l.filter (fun x => x ≠ id) = l :=
  List.filter_eq_self.mpr (fun _ ha => decide_eq_true (fun he => h (he ▸ ha)))

lemma not_mem_filter_ne (l : List String) (id : String) :
    id ∉ l.filter (fun x => x ≠ id) := by
  intro h
  have := List.of_mem_filter h
  simp at this

lemma filter_ne_perm (suf : List String) (tid : String) (ids : List String)
    (hperm : suf.Perm (tid :: ids)) (hnodup : (tid :: ids).Nodup) :
    (suf.filter (fun x => x ≠ tid)).Perm ids := by
  have h1 : (suf.filter (fun x => x ≠ tid)).Perm ((tid :: ids).filter (fun x => x ≠ tid)) :=
    hperm.filter _
  have h2 : (tid :: ids).filter (fun x => x ≠ tid) = ids := by
    rw [List.filter_cons]
    have hc : (decide (tid ≠ tid)) = false := by simp
    rw [hc]
    simp only [Bool.false_eq_true, if_false]
    exact filter_ne_of_not_mem ids tid (List.Nodup.not_mem hnodup)
  rw [h2] at h1
  exact h1

lemma moveTrace_zip (prev : String) (ps : List TaskPriority) :
    moveTrace prev ps = (ps.map TaskPriority.taskID).zip (prev :: ps.map TaskPriority.taskID) := by
  induction ps generalizing prev with
  | nil => rfl
  | cons p ps ih => simp [moveTrace, List.zip_cons_cons, ih p.taskID]

lemma moveTrace_length (prev : String) (ps : List TaskPriority) :
    (moveTrace prev ps).length = ps.length := by
  induction ps generalizing prev with
  | nil => rfl
  | cons p ps ih => simp [moveTrace, ih p.taskID]

lemma applyNewOrderFrom_spec :
    ∀ (ps : List TaskPriority) (pre : List String) (prev : String) (suf : List String),
      prev ≠ "" →
      prev ∉ pre →
      (ps.map TaskPriority.taskID).Nodup →
      suf.Perm (ps.map TaskPriority.taskID) →
      (∀ id ∈ ps.map TaskPriority.taskID, id ∉ pre ∧ id ≠ prev ∧ id ≠ "") →
      applyNewOrderFrom (pre ++ prev :: suf) prev ps = pre ++ prev :: ps.map TaskPriority.taskID := by
  intro ps
  induction ps with
  | nil =>
    intro pre prev suf _ _ _ hperm _
    rw [List.map_nil] at hperm ⊢
    rw [hperm.eq_nil]
    rfl
  | cons p ps ih =>
    intro pre prev suf hprev hpre hnodup hperm hids
    simp only [List.map_cons] at hnodup hperm hids ⊢
    rw [List.nodup_cons] at hnodup
    have htid := hids p.taskID (List.mem_cons_self _ _)
    have hmove : moveTask (pre ++ prev :: suf) p.taskID prev =
        pre ++ prev :: p.taskID :: suf.filter (fun x => x ≠ p.taskID) := by
      rw [moveTask, if_neg hprev]
      rw [List.filter_append]
      rw [filter_ne_of_not_mem pre p.taskID htid.1]
      rw [List.filter_cons]
      have hc : (decide (prev ≠ p.taskID)) = true := decide_eq_true (Ne.symm htid.2.1)
      rw [hc]
      simp only [if_true]
      exact insertAfter_split pre _ prev p.taskID hpre
    rw [applyNewOrderFrom, hmove]
    have hassoc : pre ++ prev :: p.taskID :: suf.filter (fun x => x ≠ p.taskID) =
        (pre ++ [prev]) ++ p.taskID :: suf.filter (fun x => x ≠ p.taskID) := by
      simp
    rw [hassoc]
    have hres := ih (pre ++ [prev]) p.taskID (suf.filter (fun x => x ≠ p.taskID))
      htid.2.2
      (by
        intro hmem
        rcases List.mem_append.mp hmem with hm | hm
        · exact htid.1 hm
        · exact htid.2.1 (List.mem_singleton.mp hm))
      hnodup.2
      (filter_ne_perm suf p.taskID _ hperm (List.nodup_cons.mpr hnodup))
      (by
        intro id hid
        have h3 := hids id (List.mem_cons_of_mem _ hid)
        refine ⟨?_, ?_, h3.2.2⟩
        · intro hmem
          rcases List.mem_append.mp hmem with hm | hm
          · exact h3.1 hm
          · exact h3.2.1 (List.mem_singleton.mp hm)
        · intro he
          exact hnodup.1 (he ▸ hid))
    rw [hres]
    simp

/-- **C2**: for records whose task identifiers are distinct, nonempty, and a
permutation of the store order, the replay loop issues exactly `N` move calls
— the first with an empty predecessor and each later one naming the
previously moved task — and leaves the store in exactly the ranked order. -/
theorem applyNewOrder_realizes_ranking (store : List String) (ps : List TaskPriority)
    (hnodup : (ps.map TaskPriority.taskID).Nodup)
    (hperm : store.Perm (ps.map TaskPriority.taskID))
    (hne : ∀ id ∈ ps.map TaskPriority.taskID, id ≠ "") :
    applyNewOrder store ps = ps.map TaskPriority.taskID ∧
      moveTrace "" ps = (ps.map TaskPriority.taskID).zip ("" :: ps.map TaskPriority.taskID) ∧
      (moveTrace "" ps).length = ps.length := by
  refine ⟨?_, moveTrace_zip "" ps, moveTrace_length "" ps⟩
  cases ps with
  | nil =>
    rw [List.map_nil] at hperm ⊢
    rw [applyNewOrder, applyNewOrderFrom, hperm.eq_nil]
  | cons p ps =>
    simp only [List.map_cons] at hnodup hperm hne ⊢
    rw [List.nodup_cons] at hnodup
    have htid0 : p.taskID ≠ "" := hne p.taskID (List.mem_cons_self _ _)
    rw [applyNewOrder, applyNewOrderFrom]
    have hmove0 : moveTask store p.taskID "" =
        [] ++ p.taskID :: store.filter (fun x => x ≠ p.taskID) := by
      rw [moveTask, if_pos rfl]
      rfl
    rw [hmove0]
    have := applyNewOrderFrom_spec ps [] p.taskID (store.filter (fun x => x ≠ p.taskID))
      htid0
      (List.not_mem_nil _)
      hnodup.2
      (filter_ne_perm store p.taskID _ hperm (List.nodup_cons.mpr hnodup))
      (by
        intro id hid
        refine ⟨List.not_mem_nil _, ?_, hne id (List.mem_cons_of_mem _ hid)⟩
        intro he
        exact hnodup.1 (he ▸ hid))
    rw [show ([] : List String) ++ p.taskID :: store.filter (fun x => x ≠ p.taskID) =
      [] ++ p.taskID :: store.filter (fun x => x ≠ p.taskID) from rfl] at this
    exact this

/-- Ranked records of the C2 witness: C first, then A, then B. -/
def c2C : TaskPriority := ⟨"C", 90, "top", "00001"⟩

/-- Second-ranked record of the C2 witness. -/
def c2A : TaskPriority := ⟨"A", 80, "mid", "00002"⟩

/-- Third-ranked record of the C2 witness. -/
def c2B : TaskPriority := ⟨"B", 70, "low", "00003"⟩

theorem applyNewOrder_realizes_ranking_witness :
    applyNewOrder ["A", "B", "C"] [c2C, c2A, c2B] =
        ([c2C, c2A, c2B].map TaskPriority.taskID) ∧
      moveTrace "" [c2C, c2A, c2B] =
        ([c2C, c2A, c2B].map TaskPriority.taskID).zip
          ("" :: [c2C, c2A, c2B].map TaskPriority.taskID) ∧
      (moveTrace "" [c2C, c2A, c2B]).length = ([c2C, c2A, c2B] : List TaskPriority).length :=
  applyNewOrder_realizes_ranking ["A", "B", "C"] [c2C, c2A, c2B]
    (by decide) (by decide) (by decide)

/-! ### Claims about rank sorting -/

lemma strLength_data (s : String) : s.length = s.data.length := rfl

lemma digitsVal_lt_pow (l : List Char) (h : ∀ c ∈ l, isDigitChar c) :
    digitsVal l < 10 ^ l.length := by
  induction l with
  | nil => simp [digitsVal]
  | cons c cs ih =>
    have hc := h c (List.mem_cons_self _ _)
    have hcs := ih (fun x hx => h x (List.mem_cons_of_mem _ hx))
    have h9 : c.toNat - 48 ≤ 9 := by
      rcases hc with ⟨h1, h2⟩
      omega
    simp only [digitsVal, List.length_cons, pow_succ]
    calc (c.toNat - 48) * 10 ^ cs.length + digitsVal cs
        ≤ 9 * 10 ^ cs.length + digitsVal cs :=
          Nat.add_le_add_right (Nat.mul_le_mul_right _ h9) _
      _ < 9 * 10 ^ cs.length + 10 ^ cs.length := Nat.add_lt_add_left hcs _
      _ = 10 ^ cs.length * 10 := by ring

lemma digitsVal_head_lt (c d : Char) (cs ds : List Char)
    (hlen : cs.length = ds.length)
    (hc : isDigitChar c)
    (hcs : ∀ x ∈ cs, isDigitChar x)
    (hcd : c.toNat < d.toNat) :
    digitsVal (c :: cs) < digitsVal (d :: ds) := by
  simp only [digitsVal]
  rw [← hlen]
  have hv : digitsVal cs < 10 ^ cs.length := digitsVal_lt_pow cs hcs
  have hdd : c.toNat - 48 + 1 ≤ d.toNat - 48 := by
    rcases hc with ⟨h1, _⟩
    omega
  have h1 : (c.toNat - 48) * 10 ^ cs.length + digitsVal cs <
      (c.toNat - 48 + 1) * 10 ^ cs.length := by
    rw [add_mul, one_mul]
    exact Nat.add_lt_add_left hv _
  have h2 : (c.toNat - 48 + 1) * 10 ^ cs.length ≤ (d.toNat - 48) * 10 ^ cs.length :=
    Nat.mul_le_mul_right _ hdd
  exact lt_of_lt_of_le h1 (le_trans h2 (Nat.le_add_right _ _))

lemma digit_lex_iff (a : List Char) : ∀ (b : List Char), a.length = b.length →
    (∀ c ∈ a, isDigitChar c) → (∀ c ∈ b, isDigitChar c) →
    (a < b ↔ digitsVal a < digitsVal b) := by
  induction a with
  | nil =>
    intro b hlen _ _
    cases b with
    | nil =>
      constructor
      · intro h
        cases h
      · intro h
        simp [digitsVal] at h
    | cons d ds => exact absurd hlen (by simp)
  | cons c cs ih =>
    intro b hlen ha hb
    cases b with
    | nil => exact absurd hlen (by simp)
    | cons d ds =>
      have hlen' : cs.length = ds.length := by simpa using hlen
      have hc := ha c (List.mem_cons_self _ _)
      have hd := hb d (List.mem_cons_self _ _)
      have hcs : ∀ x ∈ cs, isDigitChar x := fun x hx => ha x (List.mem_cons_of_mem _ hx)
      have hds : ∀ x ∈ ds, isDigitChar x := fun x hx => hb x (List.mem_cons_of_mem _ hx)
      constructor
      · intro h
        cases h with
        | cons htl =>
          simp only [digitsVal]
          rw [hlen']
          exact Nat.add_lt_add_left ((ih ds hlen' hcs hds).mp htl) _
        | rel hcd =>
          exact digitsVal_head_lt c d cs ds hlen' hc hcs (Char.lt_def.mp hcd)
      · intro hv
        rcases lt_trichotomy c d with hcd | hcd | hcd
        · exact List.Lex.rel hcd
        · subst hcd
          simp only [digitsVal] at hv
          rw [hlen'] at hv
          exact List.Lex.cons ((ih ds hlen' hcs hds).mpr (Nat.lt_of_add_lt_add_left hv))
        · have hcontra : digitsVal (d :: ds) < digitsVal (c :: cs) :=
            digitsVal_head_lt d c ds cs hlen'.symm hd hds (Char.lt_def.mp hcd)
          omega

/-- **C3**: the engine orders records by the position string under ordinary
lexicographic string comparison, and on same-width all-digit positions this
comparison coincides with the numeric order of the denoted ranks: the sorted
output is a permutation of the input that is ordered by numeric rank. -/
theorem sortByPosition_lex_eq_numeric (ps : List TaskPriority) (w : Nat)
    (hdig : ∀ p ∈ ps, (∀ c ∈ p.newPosition.data, isDigitChar c) ∧
      p.newPosition.length = w) :
    (∀ p ∈ ps, ∀ q ∈ ps,
      (p.newPosition < q.newPosition ↔ posVal p < posVal q)) ∧
      (sortByPosition ps).Perm ps ∧
      List.Pairwise (fun p q => posVal p ≤ posVal q) (sortByPosition ps) := by
  have hiff : ∀ p ∈ ps, ∀ q ∈ ps,
      (p.newPosition < q.newPosition ↔ posVal p < posVal q) := by
    intro p hp q hq
    rw [String.lt_iff_toList_lt]
    apply digit_lex_iff p.newPosition.data q.newPosition.data
    · exact ((hdig p hp).2).trans ((hdig q hq).2).symm
    · exact (hdig p hp).1
    · exact (hdig q hq).1
  refine ⟨hiff, List.perm_insertionSort posLe ps, ?_⟩
  have hsorted : List.Sorted posLe (sortByPosition ps) :=
    List.sorted_insertionSort posLe ps
  have hmem : ∀ x ∈ sortByPosition ps, x ∈ ps :=
    fun x hx => (List.perm_insertionSort posLe ps).subset hx
  refine List.Pairwise.imp_of_mem ?_ hsorted
  intro a b ha hb hab
  by_contra hlt
  apply hab
  show b.newPosition.toList < a.newPosition.toList
  exact String.lt_iff_toList_lt.mp ((hiff b (hmem _ hb) a (hmem _ ha)).mpr (not_le.mp hlt))

/-- First record of the C3 witness, position "00002". -/
def c3a : TaskPriority := ⟨"a", 10, "ra", "00002"⟩

/-- Second record of the C3 witness, position "00010". -/
def c3b : TaskPriority := ⟨"b", 20, "rb", "00010"⟩

/-- Third record of the C3 witness, position "00001". -/
def c3c : TaskPriority := ⟨"c", 30, "rc", "00001"⟩

theorem sortByPosition_lex_eq_numeric_witness :
    (∀ p ∈ [c3a, c3b, c3c], ∀ q ∈ [c3a, c3b, c3c],
      (p.newPosition < q.newPosition ↔ posVal p < posVal q)) ∧
      (sortByPosition [c3a, c3b, c3c]).Perm [c3a, c3b, c3c] ∧
      List.Pairwise (fun p q => posVal p ≤ posVal q) (sortByPosition [c3a, c3b, c3c]) :=
  sortByPosition_lex_eq_numeric [c3a, c3b, c3c] 5 (by decide)

/-! ### Claims about per-list failure handling -/

lemma moveTasksAfter_fail (failing : List String) (listTitle : String) :
    ∀ (pre : List Task) (prevT : Task) (store : List String) (bad : Task) (post : List Task),
      (∀ t ∈ pre, t.id ∉ failing) → bad.id ∈ failing →
      ((moveTasksAfter failing listTitle store prevT (pre ++ bad :: post)).2.1).map Prod.fst =
          (pre ++ [bad]).map Task.id ∧
        ∃ prevTitle,
          (moveTasksAfter failing listTitle store prevT (pre ++ bad :: post)).2.2 =
            some ("failed to move task " ++ bad.title ++ " after " ++ prevTitle ++
              " in list " ++ listTitle) := by
  intro pre
  induction pre with
  | nil =>
    intro prevT store bad post _ hbad
    rw [List.nil_append, moveTasksAfter, if_pos hbad]
    exact ⟨rfl, prevT.title, rfl⟩
  | cons p rest ih =>
    intro prevT store bad post hpre hbad
    rw [List.cons_append, moveTasksAfter,
      if_neg (hpre p (List.mem_cons_self _ _))]
    have := ih p (moveTask store p.id prevT.id) bad post
      (fun t ht => hpre t (List.mem_cons_of_mem _ ht)) hbad
    exact ⟨by simpa using this.1, this.2⟩

/-- **C7**: a store-side move failure aborts the replay for that list with an
error message naming the failing task and the list; the attempted moves are
exactly those for the tasks ranked before the failing one plus the failing
attempt itself, so no later move is ever attempted; and a list whose replay
already completed keeps its reordered state in the outer loop's result no
matter what happens to the lists after it. -/
theorem moveFailure_aborts_list
    (failing : List String) (listTitle : String) (store : List String)
    (pre : List Task) (bad : Task) (post : List Task)
    (hpre : ∀ t ∈ pre, t.id ∉ failing)
    (hbad : bad.id ∈ failing) :
    (((applyListOrder failing listTitle store (pre ++ bad :: post)).2.2 =
        some ("failed to move task " ++ bad.title ++ " to top in list " ++ listTitle)) ∨
      ∃ prevTitle,
        (applyListOrder failing listTitle store (pre ++ bad :: post)).2.2 =
          some ("failed to move task " ++ bad.title ++ " after " ++ prevTitle ++
            " in list " ++ listTitle)) ∧
    ((applyListOrder failing listTitle store (pre ++ bad :: post)).2.1).map Prod.fst =
      (pre ++ [bad]).map Task.id ∧
    ∀ (doneTitle : String) (doneStore : List String) (doneRanked : List Task)
      (rest : List (String × List String × List Task)),
      (applyListOrder failing doneTitle doneStore doneRanked).2.2 = none →
      (reorderLists failing ((doneTitle, doneStore, doneRanked) :: rest)).1.head? =
        some (doneTitle, (applyListOrder failing doneTitle doneStore doneRanked).1) := by
  refine ⟨?_, ?_, ?_⟩
  · cases pre with
    | nil =>
      rw [List.nil_append, applyListOrder, if_pos hbad]
      exact Or.inl rfl
    | cons p rest =>
      rw [List.cons_append, applyListOrder, if_neg (hpre p (List.mem_cons_self _ _))]
      have := moveTasksAfter_fail failing listTitle rest p (moveTask store p.id "") bad post
        (fun t ht => hpre t (List.mem_cons_of_mem _ ht)) hbad
      exact Or.inr this.2
  · cases pre with
    | nil =>
      rw [List.nil_append, applyListOrder, if_pos hbad]
      rfl
    | cons p rest =>
      rw [List.cons_append, applyListOrder, if_neg (hpre p (List.mem_cons_self _ _))]
      have := moveTasksAfter_fail failing listTitle rest p (moveTask store p.id "") bad post
        (fun t ht => hpre t (List.mem_cons_of_mem _ ht)) hbad
      simpa using this.1
  · intro doneTitle doneStore doneRanked rest hdone
    rw [reorderLists]
    simp only [hdone]
    rfl

/-- Tasks of the C7 witness list, in ranked order C, B, A. -/
def c7C : Task := ⟨"C", "Gamma", "", "", "needsAction", "", "00003"⟩

/-- The second-ranked task of the C7 witness, whose move fails. -/
def c7B : Task := ⟨"B", "Beta", "", "", "needsAction", "", "00002"⟩

/-- The third-ranked task of the C7 witness, never moved. -/
def c7A : Task := ⟨"A", "Alpha", "", "", "needsAction", "", "00001"⟩

theorem moveFailure_aborts_list_witness :
    (((applyListOrder ["B"] "Backlog" ["A", "B", "C"] ([c7C] ++ c7B :: [c7A])).2.2 =
        some ("failed to move task " ++ c7B.title ++ " to top in list " ++ "Backlog")) ∨
      ∃ prevTitle,
        (applyListOrder ["B"] "Backlog" ["A", "B", "C"] ([c7C] ++ c7B :: [c7A])).2.2 =
          some ("failed to move task " ++ c7B.title ++ " after " ++ prevTitle ++
            " in list " ++ "Backlog")) ∧
    ((applyListOrder ["B"] "Backlog" ["A", "B", "C"] ([c7C] ++ c7B :: [c7A])).2.1).map
        Prod.fst = ([c7C] ++ [c7B]).map Task.id ∧
    ∀ (doneTitle : String) (doneStore : List String) (doneRanked : List Task)
      (rest : List (String × List String × List Task)),
      (applyListOrder ["B"] doneTitle doneStore doneRanked).2.2 = none →
      (reorderLists ["B"] ((doneTitle, doneStore, doneRanked) :: rest)).1.head? =
        some (doneTitle, (applyListOrder ["B"] doneTitle doneStore doneRanked).1) :=
  moveFailure_aborts_list ["B"] "Backlog" ["A", "B", "C"] [c7C] c7B [c7A]
    (by decide) (by decide)

/-! ### Claims about target-list resolution -/

lemma shouldProcessList_iff (listTitle : String) (targets : List String) :
    shouldProcessList listTitle targets = true ↔
      ∃ t ∈ targets, strToLower t = strToLower listTitle := by
  simp [shouldProcessList, List.any_eq_true, beq_iff_eq]

lemma collectTargetTasks_eq_filter (targets : List String) (catalog : List CatalogList) :
    collectTargetTasks targets catalog =
      (catalog.filter (fun l => shouldProcessList l.title targets)).flatMap
        CatalogList.tasks := by
  induction catalog with
  | nil => rfl
  | cons l ls ih =>
    by_cases hc : shouldProcessList l.title targets = true <;>
      simp [collectTargetTasks, List.filter_cons, hc, ih]

lemma collectTargetTasks_cons_unmatched (t0 : String) (targets : List String)
    (catalog : List CatalogList)
    (h : ∀ l ∈ catalog, strToLower t0 ≠ strToLower l.title) :
    collectTargetTasks (t0 :: targets) catalog = collectTargetTasks targets catalog := by
  induction catalog with
  | nil => rfl
  | cons l ls ih =>
    have h0 := h l (List.mem_cons_self _ _)
    have hbeq : (strToLower t0 == strToLower l.title) = false :=
      beq_eq_false_iff_ne.mpr h0
    have hsp : shouldProcessList l.title (t0 :: targets) =
        shouldProcessList l.title targets := by
      rw [shouldProcessList, shouldProcessList, List.any_cons, hbeq, Bool.false_or]
    have ihh := ih (fun x hx => h x (List.mem_cons_of_mem _ hx))
    by_cases hc : shouldProcessList l.title targets = true <;>
      simp [collectTargetTasks, hsp, hc, ihh]

/-- A task of the C8 counterexample list. -/
def c8Task : Task := ⟨"x1", "Some work", "", "", "needsAction", "", "00001"⟩

/-- **C8 (counterexample)**: the matcher lowercases both sides, so the store
list titled "BACKLOG" matches the target "Backlog" although the two titles
differ as strings — under case-sensitive exact matching it would have been
skipped, but its tasks are collected. -/
theorem shouldProcessList_case_insensitive_cex :
    shouldProcessList "BACKLOG" ["Backlog"] = true ∧
      "BACKLOG" ≠ "Backlog" ∧
      collectTargetTasks ["Backlog"] [⟨"id1", "BACKLOG", [c8Task]⟩] = [c8Task] := by
  refine ⟨by decide, by decide, ?_⟩
  rw [collectTargetTasks]
  rw [if_pos (by decide)]
  rfl

/-- **C8 (amended)**: target titles are matched case-insensitively (equality
after lowercasing both sides); the catalog scan collects exactly the tasks of
matching store lists, skipping the rest; and a target title matching no
catalog list contributes nothing while the remaining targets are still
honoured. -/
theorem targetList_matching_characterization (listTitle t0 : String)
    (targets : List String) (catalog : List CatalogList)
    (h0 : ∀ l ∈ catalog, strToLower t0 ≠ strToLower l.title) :
    (shouldProcessList listTitle targets = true ↔
      ∃ t ∈ targets, strToLower t = strToLower listTitle) ∧
    collectTargetTasks targets catalog =
      (catalog.filter (fun l => shouldProcessList l.title targets)).flatMap
        CatalogList.tasks ∧
    collectTargetTasks (t0 :: targets) catalog = collectTargetTasks targets catalog :=
  ⟨shouldProcessList_iff listTitle targets,
    collectTargetTasks_eq_filter targets catalog,
    collectTargetTasks_cons_unmatched t0 targets catalog h0⟩

theorem targetList_matching_characterization_witness :
    (shouldProcessList "backlog" ["Backlog", "In Progress"] = true ↔
      ∃ t ∈ ["Backlog", "In Progress"], strToLower t = strToLower "backlog") ∧
    collectTargetTasks ["Backlog", "In Progress"] [⟨"id1", "BACKLOG", [c8Task]⟩] =
      (([⟨"id1", "BACKLOG", [c8Task]⟩] : List CatalogList).filter
        (fun l => shouldProcessList l.title ["Backlog", "In Progress"])).flatMap
        CatalogList.tasks ∧
    collectTargetTasks ("Bogus" :: ["Backlog", "In Progress"])
        [⟨"id1", "BACKLOG", [c8Task]⟩] =
      collectTargetTasks ["Backlog", "In Progress"] [⟨"id1", "BACKLOG", [c8Task]⟩] :=
  targetList_matching_characterization "backlog" "Bogus" ["Backlog", "In Progress"]
    [⟨"id1", "BACKLOG", [c8Task]⟩] (by decide)

end Zap
